import Mathlib

/-!
Verification of the p2p-chat-mobile core: wire protocol codec
(`src/protocol/P2PProtocol.js`), deduplication cache, and the write/lifecycle
behaviour of the mesh router (`src/network/P2PNetworkManager.js`).

Bytes are modelled as natural numbers; every byte produced by the code is
taken modulo 256 exactly where the JavaScript typed-array operations truncate.
-/

namespace P2PChat

/-- Message type codes from `MessageType` in `P2PProtocol.js`. -/
def MessageType.PING : Nat := 1

/-- `MessageType.PONG = 0x02`. -/
def MessageType.PONG : Nat := 2

/-- `MessageType.PEER_DISCOVERY = 0x03`. -/
def MessageType.PEER_DISCOVERY : Nat := 3

/-- `MessageType.PEER_ANNOUNCEMENT = 0x04`. -/
def MessageType.PEER_ANNOUNCEMENT : Nat := 4

/-- `MessageType.CHAT_MESSAGE = 0x05`. -/
def MessageType.CHAT_MESSAGE : Nat := 5

/-- The `Message` value of `P2PProtocol.js`: `msgType`, `ttl`, `msgId`, and a
byte-sequence payload.  Field names follow the JavaScript class. -/
structure Message where
  msgType : Nat
  ttl : Nat
  msgId : Nat
  payload : List Nat
  deriving DecidableEq, Repr

/-- The `Message` constructor: throws (here: `none`) when `ttl < 0 || ttl > 7`
or `payload.length > 65535`; otherwise stores the supplied fields unchanged.
The `ttl` argument is an integer, as in JavaScript, so that the `ttl < 0`
branch of the check is represented. -/
def mkMessage (msgType : Nat) (ttl : Int) (msgId : Nat) (payload : List Nat) :
    Option Message :=
  if ttl < 0 ∨ 7 < ttl then none
  else if 65535 < payload.length then none
  else some ⟨msgType, ttl.toNat, msgId, payload⟩

/-- Validity of a `Message` per the data model: `ttl` in 0–7 and payload at
most 65535 bytes (the constructor-checked conditions), `msgType` one of the
single-byte type codes (hence `< 256`) and `msgId` a 32-bit integer. -/
def ValidMessage (m : Message) : Prop :=
  m.ttl ≤ 7 ∧ m.payload.length ≤ 65535 ∧ m.msgType < 256 ∧ m.msgId < 4294967296

instance (m : Message) : Decidable (ValidMessage m) := by
  unfold ValidMessage; infer_instance

/-- The two bytes written by `DataView.setUint16(_, v, false)` (big-endian):
the 16-bit truncation of `v`, high byte first. -/
def be16 (v : Nat) : List Nat := [v / 256 % 256, v % 256]

/-- The four bytes written by `DataView.setUint32(_, v, false)` (big-endian):
the 32-bit truncation of `v`, high byte first. -/
def be32 (v : Nat) : List Nat :=
  [v / 16777216 % 256, v / 65536 % 256, v / 256 % 256, v % 256]

/-- `P2PProtocol.serialize`: 8-byte header `[type:1][ttl:1][id:4 BE][len:2 BE]`
followed by the payload.  `setUint8` truncates modulo 256. -/
def serialize (m : Message) : List Nat :=
  m.msgType % 256 :: m.ttl % 256 ::
    (be32 m.msgId ++ (be16 m.payload.length ++ m.payload))

/-- The 16-bit big-endian value at offset 6 of a byte sequence — the
`payloadLength` header field as read by `deserialize`. -/
def payloadLengthAt (data : List Nat) : Nat :=
  data.getD 6 0 * 256 + data.getD 7 0

/-- `P2PProtocol.deserialize`: `null` on fewer than 8 bytes; reads `msgType`
at offset 0, `ttl` at offset 1, `msgId` big-endian at offsets 2–5 and
`payloadLength` big-endian at offsets 6–7; `null` when the buffer is shorter
than `8 + payloadLength`; otherwise slices the payload and builds the
`Message`, the constructor's throw being caught and turned into `null`. -/
def deserialize (data : List Nat) : Option Message :=
  if data.length < 8 then none
  else if data.length < 8 + payloadLengthAt data then none
  else
    mkMessage (data.getD 0 0) (data.getD 1 0 : Int)
      (data.getD 2 0 * 16777216 + data.getD 3 0 * 65536 +
        data.getD 4 0 * 256 + data.getD 5 0)
      ((data.drop 8).take (payloadLengthAt data))

/-- `P2PProtocol.isDuplicate`, acting on the dedup cache modelled as its
insertion-ordered list of entries (a JavaScript `Set` iterates in insertion
order).  Returns the boolean result and the updated cache: already-present ids
return `true` and leave the cache alone; fresh ids are appended, and when the
size then exceeds 10000 the cache is rebuilt from
`entries.slice(entries.length / 2)` — the newer half. -/
def isDuplicate (c : List Nat) (msgId : Nat) : Bool × List Nat :=
  if msgId ∈ c then (true, c)
  else if 10000 < (c ++ [msgId]).length then
    (false, (c ++ [msgId]).drop ((c ++ [msgId]).length / 2))
  else (false, c ++ [msgId])

/-- Iterated `isDuplicate` over a list of ids (states threaded left to
right), used to express multi-step cache scenarios. -/
def checkAll (c : List Nat) (ids : List Nat) : List Nat :=
  ids.foldl (fun s i => (isDuplicate s i).2) c

/-! ## Router write behaviour

`P2PNetworkManager` keeps `connections : Map<peerKey, socket>`; for the claims
about which frames get written where, a node's connection table is modelled by
its (duplicate-free) key list, and each routing step is modelled by the list
of `(peerKey, frameBytes)` socket writes it performs, in order.  Handlers for
PONG / PEER_DISCOVERY / PEER_ANNOUNCEMENT / CHAT_MESSAGE only touch the peer
registry or fire application callbacks — they write no frames — so the only
handler contributing writes is `handlePing`.  `generateMessageId` depends on
the clock and `Math.random`, so the id of the freshly built PONG enters the
model as the parameter `pongId`. -/

/-- The outer frame written to a socket: 4-byte big-endian length prefix
(`lengthBuffer.writeUInt32BE(serializedMessage.length)`) followed by the
serialized message. -/
def serializeFrame (m : Message) : List Nat :=
  be32 (serialize m).length ++ serialize m

/-- The PONG built by `handlePing`: type `MessageType.PONG`, ttl 1, a fresh
id, empty payload. -/
def pongMessage (pongId : Nat) : Message :=
  ⟨MessageType.PONG, 1, pongId, []⟩

/-- `P2PNetworkManager.sendToPeer`: writes the framed message to the peer's
socket when a connection for `peerKey` exists, otherwise does nothing. -/
def sendToPeer (conns : List String) (m : Message) (peerKey : String) :
    List (String × List Nat) :=
  if peerKey ∈ conns then [(peerKey, serializeFrame m)] else []

/-- `P2PNetworkManager.forwardMessage`: writes the framed message to every
connection whose key differs from `excludePeerKey` (`null` = exclude
nobody). -/
def forwardMessage (conns : List String) (m : Message)
    (excludePeerKey : Option String) : List (String × List Nat) :=
  conns.filterMap fun peerKey =>
    if some peerKey = excludePeerKey then none
    else some (peerKey, serializeFrame m)

/-- Socket writes performed by the per-type handler dispatched from
`handleMessage`: `handlePing` replies with a fresh PONG via `sendToPeer`;
every other registered handler (and the absence of a handler) writes
nothing. -/
def handlerWrites (conns : List String) (m : Message) (fromPeerKey : String)
    (pongId : Nat) : List (String × List Nat) :=
  if m.msgType = MessageType.PING then
    sendToPeer conns (pongMessage pongId) fromPeerKey
  else []

/-- Socket writes of `P2PNetworkManager.handleMessage` on a non-duplicate
decoded message: first the handler's writes, then — when `ttl > 0` — the
flood forward of the message with `ttl` decremented, excluding the sender. -/
def handleMessageWrites (conns : List String) (m : Message)
    (fromPeerKey : String) (pongId : Nat) : List (String × List Nat) :=
  handlerWrites conns m fromPeerKey pongId ++
    if 0 < m.ttl then
      forwardMessage conns { m with ttl := m.ttl - 1 } (some fromPeerKey)
    else []

/-! ## Connection / peer-registry lifecycle

For the key-set invariant claim, the node state is the pair of key lists of
`this.connections` and `this.peers`, and each lifecycle operation of
`P2PNetworkManager` is an event transforming that state. -/

/-- Key sets of the `connections` and `peers` maps of a node. -/
structure NetState where
  connections : List String
  peers : List String
  deriving DecidableEq, Repr

/-- `Map.set k _` on the key set: appends the key if absent. -/
def mapSet (l : List String) (k : String) : List String :=
  if k ∈ l then l else l ++ [k]

/-- `Map.delete k` on the key set. -/
def mapDelete (l : List String) (k : String) : List String :=
  l.erase k

/-- Lifecycle operations of `P2PNetworkManager` that touch the two maps:
a successful outbound dial (`connectToPeer`'s connect callback), an inbound
accept (`handleIncomingConnection`), a peer disconnect
(`handlePeerDisconnect`, also run per stale key by the cleanup sweep), the
stale sweep with its computed list of stale keys, and `stop`. -/
inductive NetEvent where
  | outboundConnect (k : String)
  | inboundAccept (k : String)
  | peerDisconnect (k : String)
  | staleSweep (stale : List String)
  | stop
  deriving DecidableEq, Repr

/-- One lifecycle step.  `connectToPeer` resolves immediately when already
connected; on a successful dial it sets both maps.  `handleIncomingConnection`
sets both maps.  `handlePeerDisconnect` deletes from both.  The sweep runs
`handlePeerDisconnect` for each stale key.  `stop` destroys the sockets and
clears `this.connections` — it does not touch `this.peers`. -/
def step (s : NetState) : NetEvent → NetState
  | .outboundConnect k =>
      if k ∈ s.connections then s
      else ⟨mapSet s.connections k, mapSet s.peers k⟩
  | .inboundAccept k => ⟨mapSet s.connections k, mapSet s.peers k⟩
  | .peerDisconnect k => ⟨mapDelete s.connections k, mapDelete s.peers k⟩
  | .staleSweep stale =>
      stale.foldl
        (fun t k => ⟨mapDelete t.connections k, mapDelete t.peers k⟩) s
  | .stop => ⟨[], s.peers⟩

/-- A node's state after a sequence of lifecycle events, starting from the
freshly constructed node (both maps empty). -/
def run (events : List NetEvent) : NetState :=
  events.foldl step ⟨[], []⟩

/-! ## Codec lemmas and theorems -/

lemma serialize_eq (t ttl id : Nat) (p : List Nat) :
    serialize ⟨t, ttl, id, p⟩ =
      t % 256 :: ttl % 256 :: id / 16777216 % 256 :: id / 65536 % 256 ::
        id / 256 % 256 :: id % 256 :: p.length / 256 % 256 ::
        p.length % 256 :: p := rfl

lemma validMessage_mk (t ttl id : Nat) (p : List Nat) :
    ValidMessage ⟨t, ttl, id, p⟩ ↔
      ttl ≤ 7 ∧ p.length ≤ 65535 ∧ t < 256 ∧ id < 4294967296 := Iff.rfl

lemma serialize_length (m : Message) :
    (serialize m).length = 8 + m.payload.length := by
  obtain ⟨t, ttl, id, p⟩ := m
  rw [serialize_eq]
  simp only [List.length_cons]
  omega

/-- C8: `Message` construction fails exactly when `ttl` is outside 0–7 or the
payload exceeds 65535 bytes; for in-range inputs it succeeds with exactly the
supplied fields. -/
theorem mkMessage_validation (msgType : Nat) (ttl : Int) (msgId : Nat)
    (payload : List Nat) :
    (mkMessage msgType ttl msgId payload = none ↔
      ttl < 0 ∨ 7 < ttl ∨ 65535 < payload.length) ∧
    (0 ≤ ttl → ttl ≤ 7 → payload.length ≤ 65535 →
      mkMessage msgType ttl msgId payload =
        some ⟨msgType, ttl.toNat, msgId, payload⟩ ∧ (ttl.toNat : Int) = ttl) := by
  unfold mkMessage
  split_ifs with h1 h2 <;> simp_all <;> omega

/-- Witness for C8 at a concrete in-range and a concrete out-of-range
input. -/
theorem mkMessage_validation_witness :
    mkMessage 5 3 9 [1, 2] = some ⟨5, 3, 9, [1, 2]⟩ ∧
    mkMessage 5 8 9 [1, 2] = none := by
  refine ⟨?_, ?_⟩
  · exact ((mkMessage_validation 5 3 9 [1, 2]).2 (by decide) (by decide)
      (by decide)).1
  · exact (mkMessage_validation 5 8 9 [1, 2]).1.mpr (by decide)

/-- C2: for a valid message, `serialize` produces `8 + payload.length` bytes:
byte 0 the type, byte 1 the ttl, bytes 2–5 the id big-endian, bytes 6–7 the
payload length big-endian, then the payload unchanged. -/
theorem serialize_layout (m : Message) (h : ValidMessage m) :
    (serialize m).length = 8 + m.payload.length ∧
    (serialize m).getD 0 0 = m.msgType ∧
    (serialize m).getD 1 0 = m.ttl ∧
    (serialize m).getD 2 0 * 16777216 + (serialize m).getD 3 0 * 65536 +
      (serialize m).getD 4 0 * 256 + (serialize m).getD 5 0 = m.msgId ∧
    (serialize m).getD 6 0 * 256 + (serialize m).getD 7 0 =
      m.payload.length ∧
    (serialize m).drop 8 = m.payload := by
  obtain ⟨t, ttl, id, p⟩ := m
  rw [validMessage_mk] at h
  obtain ⟨h1, h2, h3, h4⟩ := h
  refine ⟨serialize_length _, ?_, ?_, ?_, ?_, ?_⟩ <;>
    rw [serialize_eq] <;>
    simp only [List.getD_cons_zero, List.getD_cons_succ]
  · omega
  · omega
  · omega
  · omega
  · exact List.drop_left
      [t % 256, ttl % 256, id / 16777216 % 256, id / 65536 % 256,
        id / 256 % 256, id % 256, p.length / 256 % 256, p.length % 256] p

/-- Witness for C2 at a concrete valid message. -/
theorem serialize_layout_witness :
    (serialize ⟨5, 3, 9, [65, 66]⟩).length = 8 + 2 ∧
    (serialize ⟨5, 3, 9, [65, 66]⟩).drop 8 = [65, 66] := by
  have h := serialize_layout ⟨5, 3, 9, [65, 66]⟩ (by decide)
  exact ⟨h.1, h.2.2.2.2.2⟩

/-- C1: decoding an encoding of any valid message returns exactly that
message — same type, ttl, id, and payload bytes. -/
theorem deserialize_serialize_roundtrip (m : Message) (h : ValidMessage m) :
    deserialize (serialize m) = some m := by
  obtain ⟨t, ttl, id, p⟩ := m
  rw [validMessage_mk] at h
  obtain ⟨h1, h2, h3, h4⟩ := h
  have ht : t % 256 = t := Nat.mod_eq_of_lt (by omega)
  have httl : ttl % 256 = ttl := Nat.mod_eq_of_lt (by omega)
  rw [serialize_eq, ht, httl]
  unfold deserialize payloadLengthAt
  simp only [List.getD_cons_zero, List.getD_cons_succ, List.length_cons]
  have hpl : p.length / 256 % 256 * 256 + p.length % 256 = p.length := by
    omega
  rw [hpl]
  rw [if_neg (by omega), if_neg (by omega)]
  have hdrop :
      List.drop 8
        (t :: ttl :: id / 16777216 % 256 :: id / 65536 % 256 ::
          id / 256 % 256 :: id % 256 :: p.length / 256 % 256 ::
          p.length % 256 :: p) = p :=
    List.drop_left
      [t, ttl, id / 16777216 % 256, id / 65536 % 256, id / 256 % 256,
        id % 256, p.length / 256 % 256, p.length % 256] p
  rw [hdrop, List.take_length]
  unfold mkMessage
  rw [if_neg (by omega), if_neg (by omega)]
  have hid : id / 16777216 % 256 * 16777216 + id / 65536 % 256 * 65536 +
      id / 256 % 256 * 256 + id % 256 = id := by omega
  simp [hid, Int.toNat_natCast]

/-- Witness for C1 at a concrete valid message. -/
theorem deserialize_serialize_roundtrip_witness :
    deserialize (serialize ⟨5, 3, 9, [65, 66]⟩) = some ⟨5, 3, 9, [65, 66]⟩ :=
  deserialize_serialize_roundtrip ⟨5, 3, 9, [65, 66]⟩ (by decide)

lemma payloadLengthAt_le (data : List Nat) (hbytes : ∀ b ∈ data, b < 256)
    (hlen : 8 ≤ data.length) : payloadLengthAt data ≤ 65535 := by
  have h6 : data.getD 6 0 < 256 := by
    have hm : data.getD 6 0 ∈ data := by
      rw [List.getD_eq_getElem data 0 (by omega)]
      exact List.getElem_mem _
    exact hbytes _ hm
  have h7 : data.getD 7 0 < 256 := by
    have hm : data.getD 7 0 ∈ data := by
      rw [List.getD_eq_getElem data 0 (by omega)]
      exact List.getElem_mem _
    exact hbytes _ hm
  unfold payloadLengthAt
  omega

/-- C9: on any byte sequence, `deserialize` is total and returns `none`
exactly in the three documented situations — fewer than 8 bytes, fewer than
`8 + payloadLength` bytes (with `payloadLength` the big-endian 16-bit value
at offset 6), or a header ttl byte that would violate `Message` construction
(given single-byte input values, the only constructible violation);
otherwise it returns the decoded message. -/
theorem deserialize_null_cases (data : List Nat)
    (hbytes : ∀ b ∈ data, b < 256) :
    (data.length < 8 → deserialize data = none) ∧
    (data.length < 8 + payloadLengthAt data → deserialize data = none) ∧
    (8 ≤ data.length → 8 + payloadLengthAt data ≤ data.length →
      7 < data.getD 1 0 → deserialize data = none) ∧
    (8 ≤ data.length → 8 + payloadLengthAt data ≤ data.length →
      data.getD 1 0 ≤ 7 →
      deserialize data =
        some ⟨data.getD 0 0,
          data.getD 1 0,
          data.getD 2 0 * 16777216 + data.getD 3 0 * 65536 +
            data.getD 4 0 * 256 + data.getD 5 0,
          (data.drop 8).take (payloadLengthAt data)⟩) := by
  refine ⟨fun hshort => ?_, fun hmid => ?_, fun hge hfit httl => ?_,
    fun hge hfit httl => ?_⟩
  · unfold deserialize
    rw [if_pos hshort]
  · unfold deserialize
    rcases Nat.lt_or_ge data.length 8 with hc | hc
    · rw [if_pos hc]
    · rw [if_neg (by omega), if_pos hmid]
  · unfold deserialize
    rw [if_neg (by omega), if_neg (by omega)]
    unfold mkMessage
    rw [if_pos (by omega)]
  · unfold deserialize
    rw [if_neg (by omega), if_neg (by omega)]
    unfold mkMessage
    rw [if_neg (by omega)]
    have htake :
        ((data.drop 8).take (payloadLengthAt data)).length ≤ 65535 := by
      have hb := payloadLengthAt_le data hbytes hge
      have hl : ((data.drop 8).take (payloadLengthAt data)).length
          ≤ payloadLengthAt data := by
        simp [List.length_take]
      omega
    rw [if_neg (by omega)]
    simp [Int.toNat_natCast]

/-! ## Deduplication cache lemmas and theorems -/

lemma checkAll_cons (c : List Nat) (i : Nat) (t : List Nat) :
    checkAll c (i :: t) = checkAll (isDuplicate c i).2 t := rfl

lemma checkAll_append (c : List Nat) (l1 l2 : List Nat) :
    checkAll c (l1 ++ l2) = checkAll (checkAll c l1) l2 :=
  List.foldl_append _ _ _ _

lemma isDuplicate_of_mem (c : List Nat) (id : Nat) (h : id ∈ c) :
    isDuplicate c id = (true, c) := by
  unfold isDuplicate
  rw [if_pos h]

lemma length_append_singleton (c : List Nat) (id : Nat) :
    (c ++ [id]).length = c.length + 1 := by
  simp

lemma isDuplicate_of_not_mem_le (c : List Nat) (id : Nat) (h : id ∉ c)
    (hlen : c.length + 1 ≤ 10000) :
    isDuplicate c id = (false, c ++ [id]) := by
  have hc : ¬ 10000 < (c ++ [id]).length := by
    rw [length_append_singleton]
    omega
  unfold isDuplicate
  rw [if_neg h, if_neg hc]

lemma isDuplicate_of_not_mem_evict (c : List Nat) (id : Nat) (h : id ∉ c)
    (hlen : 10000 < c.length + 1) :
    isDuplicate c id = (false, (c ++ [id]).drop ((c.length + 1) / 2)) := by
  have hc : 10000 < (c ++ [id]).length := by
    rw [length_append_singleton]
    omega
  unfold isDuplicate
  rw [if_neg h, if_pos hc, length_append_singleton]

lemma isDuplicate_fst_true (c : List Nat) (id : Nat) (h : id ∈ c) :
    (isDuplicate c id).1 = true := by
  rw [isDuplicate_of_mem c id h]

lemma isDuplicate_fst_false (c : List Nat) (id : Nat) (h : id ∉ c) :
    (isDuplicate c id).1 = false := by
  unfold isDuplicate
  rw [if_neg h]
  rcases Nat.lt_or_ge 10000 (c ++ [id]).length with hc | hc
  · rw [if_pos hc]
  · rw [if_neg (by omega)]

/-- Checking a batch of ids never evicts while the total stays within the
10000-entry capacity: the state grows by at most one entry per check and
every starting entry is retained. -/
lemma checkAll_no_evict : ∀ (ids : List Nat) (c : List Nat),
    c.length + ids.length ≤ 10000 →
    (checkAll c ids).length ≤ c.length + ids.length ∧
    ∀ x ∈ c, x ∈ checkAll c ids := by
  intro ids
  induction ids with
  | nil =>
    intro c h
    exact ⟨by simp [checkAll], fun x hx => by simpa [checkAll] using hx⟩
  | cons i t ih =>
    intro c h
    simp only [List.length_cons] at h
    by_cases hm : i ∈ c
    · rw [checkAll_cons, isDuplicate_of_mem c i hm]
      have hr := ih c (by omega)
      exact ⟨by simp only [List.length_cons]; omega, hr.2⟩
    · rw [checkAll_cons, isDuplicate_of_not_mem_le c i hm (by omega)]
      have hr := ih (c ++ [i]) (by rw [length_append_singleton]; omega)
      refine ⟨?_, fun x hx => hr.2 x (by simp [hx])⟩
      have hl := hr.1
      rw [length_append_singleton] at hl
      simp only [List.length_cons]
      omega

lemma range'_snoc (k : Nat) :
    List.range' 0 k ++ [k] = List.range' 0 (k + 1) := by
  have h := List.range'_append 0 k 1 1
  norm_num at h
  rw [Nat.add_comm k 1]
  exact h

/-- Checking a run of fresh consecutive ids on a cache that already holds
exactly the ids below them: each check appends, and no eviction fires while
the total stays within capacity. -/
lemma checkAll_range'_fresh : ∀ (j k : Nat), k + j ≤ 10000 →
    checkAll (List.range' 0 k) (List.range' k j) = List.range' 0 (k + j) := by
  intro j
  induction j with
  | zero => intro k h; simp [checkAll]
  | succ n ih =>
    intro k h
    have hcons : List.range' k (n + 1) = k :: List.range' (k + 1) n := rfl
    have hk : k ∉ List.range' 0 k := by simp [List.mem_range'_1]
    rw [hcons, checkAll_cons,
      isDuplicate_of_not_mem_le _ _ hk (by rw [List.length_range']; omega)]
    show checkAll (List.range' 0 k ++ [k]) (List.range' (k + 1) n) =
      List.range' 0 (k + (n + 1))
    rw [range'_snoc k, ih (k + 1) (by omega)]
    congr 1
    omega

lemma range'_drop_5000 :
    (List.range' 0 10001).drop 5000 = List.range' 5000 5001 := by
  have h := List.range'_append 0 5000 5001 1
  norm_num at h
  have hd := List.drop_left (List.range' 0 5000) (List.range' 5000 5001)
  rw [List.length_range'] at hd
  rw [← h]
  exact hd

/-- The 10001st fresh id overflows the cache and triggers the reset-to-half
eviction: the older 5000 ids are discarded, the newer 5001 kept. -/
lemma isDuplicate_full_evict :
    isDuplicate (List.range' 0 10000) 10000 =
      (false, List.range' 5000 5001) := by
  have hm : (10000 : Nat) ∉ List.range' 0 10000 := by simp [List.mem_range'_1]
  rw [isDuplicate_of_not_mem_evict _ _ hm (by rw [List.length_range']; omega)]
  rw [List.length_range']
  norm_num
  rw [range'_snoc 10000]
  exact range'_drop_5000

/-- C6: after checking the 10001 distinct ids `0, …, 10000` from an empty
cache, re-checking (against the resulting state) any of the 5000
earliest-inserted ids returns `false` — they were evicted — while re-checking
any of the 5001 most recent ids returns `true`. -/
theorem dedup_eviction_halves :
    (∀ i < 5000,
      (isDuplicate (checkAll [] (List.range 10001)) i).1 = false) ∧
    (∀ i, 5000 ≤ i → i ≤ 10000 →
      (isDuplicate (checkAll [] (List.range 10001)) i).1 = true) := by
  have hS : checkAll [] (List.range 10001) = List.range' 5000 5001 := by
    rw [List.range_eq_range' 10001, show (10001 : Nat) = 10000 + 1 from rfl,
      ← range'_snoc 10000, checkAll_append]
    have h2 : checkAll [] (List.range' 0 10000) = List.range' 0 10000 := by
      have h := checkAll_range'_fresh 10000 0 (by omega)
      simpa using h
    rw [h2]
    show (isDuplicate (List.range' 0 10000) 10000).2 = List.range' 5000 5001
    rw [isDuplicate_full_evict]
  rw [hS]
  constructor
  · intro i hi
    exact isDuplicate_fst_false _ _ (by simp [List.mem_range'_1]; omega)
  · intro i hi1 hi2
    exact isDuplicate_fst_true _ _ (by simp [List.mem_range'_1]; omega)

/-- Witness for C6 at two concrete re-checked ids. -/
theorem dedup_eviction_halves_witness :
    (isDuplicate (checkAll [] (List.range 10001)) 17).1 = false ∧
    (isDuplicate (checkAll [] (List.range 10001)) 9000).1 = true :=
  ⟨dedup_eviction_halves.1 17 (by omega),
   dedup_eviction_halves.2 9000 (by omega) (by omega)⟩

/-- Counterexample to C5 as stated: start from a cache holding the single
entry 0 (fewer than 10000 entries, none equal to 1).  The first check of id 1
returns `false` and records it — but after only 9999 distinct other ids
(2 through 10000, fewer than 10,000) are inserted, the cache has been through
an eviction that dropped id 1, and re-checking 1 returns `false` where the
claim requires `true`. -/
theorem dedup_reinsertion_counterexample :
    ([0] : List Nat).length < 10000 ∧ (1 : Nat) ∉ ([0] : List Nat) ∧
    (isDuplicate [0] 1).1 = false ∧
    (List.range' 2 9999).length = 9999 ∧ (List.range' 2 9999).Nodup ∧
    (1 : Nat) ∉ List.range' 2 9999 ∧
    (isDuplicate (checkAll (isDuplicate [0] 1).2 (List.range' 2 9999))
      1).1 = false := by
  refine ⟨by decide, by decide, by decide, List.length_range' 2 1 9999,
    List.nodup_range' 2 9999, by simp [List.mem_range'_1], ?_⟩
  have h1 : (isDuplicate [0] 1).2 = List.range' 0 2 := by decide
  have hsplit : List.range' 2 9999 = List.range' 2 9998 ++ [10000] := by
    have h := List.range'_append 2 9998 1 1
    norm_num at h
    exact h.symm
  rw [h1, hsplit, checkAll_append,
    checkAll_range'_fresh 9998 2 (by omega)]
  show (isDuplicate (isDuplicate (List.range' 0 10000) 10000).2 1).1 = false
  rw [isDuplicate_full_evict]
  exact isDuplicate_fst_false _ _ (by simp [List.mem_range'_1])

/-- C5 (amended): for a cache currently holding `n < 10000` entries, none of
which is `id`, the first check of `id` returns `false` and records it, and
every later check of `id` returns `true` as long as fewer than `10000 − n`
checks of other ids happen in between — the bound at which the first eviction
can fire.  (From an empty cache this is the claimed 10,000 bound.) -/
theorem isDuplicate_fresh_then_true (c : List Nat) (id : Nat)
    (others : List Nat) (hid : id ∉ c) (hc : c.length < 10000)
    (hothers : others.length < 10000 - c.length) :
    (isDuplicate c id).1 = false ∧
    (isDuplicate (checkAll (isDuplicate c id).2 others) id).1 = true := by
  refine ⟨isDuplicate_fst_false c id hid, ?_⟩
  rw [isDuplicate_of_not_mem_le c id hid (by omega)]
  show (isDuplicate (checkAll (c ++ [id]) others) id).1 = true
  have hgrow := checkAll_no_evict others (c ++ [id])
    (by simp only [List.length_append, List.length_cons, List.length_nil]
        omega)
  exact isDuplicate_fst_true _ _ (hgrow.2 id (by simp))

/-- Witness for C5 (amended) at a concrete cache and id. -/
theorem isDuplicate_fresh_then_true_witness :
    (isDuplicate [] 1).1 = false ∧
    (isDuplicate (checkAll (isDuplicate [] 1).2 [2, 3]) 1).1 = true :=
  isDuplicate_fresh_then_true [] 1 [2, 3] (by decide) (by decide) (by decide)

/-- C10: after any call to the duplicate check with `id` — whether it
returned `true` or `false`, and whether or not the reset-to-half eviction
fired — `id` is a member of the resulting cache: the eviction keeps the newer
half of the insertion order, and the just-inserted id is the newest entry. -/
theorem isDuplicate_mem_after (c : List Nat) (id : Nat) :
    id ∈ (isDuplicate c id).2 := by
  by_cases h : id ∈ c
  · rw [isDuplicate_of_mem c id h]
    exact h
  · rcases Nat.lt_or_ge 10000 (c.length + 1) with hc | hc
    · rw [isDuplicate_of_not_mem_evict c id h hc]
      show id ∈ (c ++ [id]).drop ((c.length + 1) / 2)
      rw [List.drop_append_of_le_length (by omega)]
      simp
    · rw [isDuplicate_of_not_mem_le c id h (by omega)]
      simp

/-! ## Router write lemmas and theorems -/

lemma serializeFrame_getD_four (m : Message) :
    (serializeFrame m).getD 4 0 = m.msgType % 256 := rfl

lemma serializeFrame_ne_of_msgType (m1 m2 : Message)
    (h : m1.msgType % 256 ≠ m2.msgType % 256) :
    serializeFrame m1 ≠ serializeFrame m2 := by
  intro he
  apply h
  rw [← serializeFrame_getD_four, ← serializeFrame_getD_four, he]

lemma mem_forwardMessage (conns : List String) (m : Message)
    (ex : Option String) (q : String) (f : List Nat) :
    (q, f) ∈ forwardMessage conns m ex ↔
      q ∈ conns ∧ some q ≠ ex ∧ f = serializeFrame m := by
  unfold forwardMessage
  rw [List.mem_filterMap]
  constructor
  · rintro ⟨a, ha, hf⟩
    by_cases hex : some a = ex
    · rw [if_pos hex] at hf
      cases hf
    · rw [if_neg hex] at hf
      have h2 := Option.some.inj hf
      rw [Prod.mk.injEq] at h2
      obtain ⟨rfl, rfl⟩ := h2
      exact ⟨ha, hex, rfl⟩
  · rintro ⟨hq, hex, rfl⟩
    exact ⟨q, hq, by rw [if_neg hex]⟩

lemma forwardMessage_cons (a : String) (t : List String) (m : Message)
    (ex : Option String) :
    forwardMessage (a :: t) m ex =
      (if some a = ex then [] else [(a, serializeFrame m)]) ++
        forwardMessage t m ex := by
  unfold forwardMessage
  simp only [List.filterMap_cons]
  by_cases hex : some a = ex
  · rw [if_pos hex, if_pos hex]
    simp
  · rw [if_neg hex, if_neg hex]
    simp

/-- With duplicate-free connection keys, flood forwarding writes the frame
exactly once to a connected peer that is not the excluded sender. -/
lemma count_forwardMessage : ∀ (conns : List String) (m : Message)
    (fromKey p : String), conns.Nodup → p ∈ conns → p ≠ fromKey →
    (forwardMessage conns m (some fromKey)).count (p, serializeFrame m) = 1 := by
  intro conns m fromKey
  induction conns with
  | nil =>
    intro p _ hp _
    cases hp
  | cons a t ih =>
    intro p hnd hp hne
    rw [List.nodup_cons] at hnd
    rw [forwardMessage_cons]
    by_cases hex : some a = some fromKey
    · rw [if_pos hex, List.nil_append]
      rcases List.mem_cons.mp hp with rfl | hpt
      · exact absurd (Option.some.inj hex) hne
      · exact ih p hnd.2 hpt hne
    · rw [if_neg hex, List.singleton_append]
      by_cases hpa : a = p
      · subst hpa
        have ht0 : (forwardMessage t m (some fromKey)).count
            (a, serializeFrame m) = 0 := by
          rw [List.count_eq_zero]
          intro hmem
          rw [mem_forwardMessage] at hmem
          exact hnd.1 hmem.1
        rw [List.count_cons_self, ht0]
      · rcases List.mem_cons.mp hp with rfl | hpt
        · exact absurd rfl hpa
        · rw [List.count_cons_of_ne
            (by intro hc; exact hpa (congrArg Prod.fst hc).symm),
            ih p hnd.2 hpt hne]

lemma handlerWrites_mem (conns : List String) (m : Message)
    (fromKey : String) (pongId : Nat) (q : String) (f : List Nat)
    (h : (q, f) ∈ handlerWrites conns m fromKey pongId) :
    q = fromKey ∧ f = serializeFrame (pongMessage pongId) ∧
      m.msgType = MessageType.PING ∧ fromKey ∈ conns := by
  unfold handlerWrites sendToPeer at h
  by_cases hping : m.msgType = MessageType.PING
  · rw [if_pos hping] at h
    by_cases hfrom : fromKey ∈ conns
    · rw [if_pos hfrom, List.mem_singleton] at h
      exact ⟨congrArg Prod.fst h, congrArg Prod.snd h, hping, hfrom⟩
    · rw [if_neg hfrom] at h
      cases h
  · rw [if_neg hping] at h
    cases h

/-- C3: for a non-duplicate message from `fromPeerKey`: with `ttl = 0` the
message is not written to any peer at all; with `ttl = k > 0` the frame
carrying the message with `ttl = k − 1` is written exactly once to every
connected peer other than `fromPeerKey`, and no frame written to
`fromPeerKey` is that forwarded frame. -/
theorem handleMessage_forwarding (conns : List String) (m : Message)
    (fromPeerKey : String) (pongId : Nat) (hnd : conns.Nodup) :
    (m.ttl = 0 → ∀ p : String,
      (p, serializeFrame m) ∉ handleMessageWrites conns m fromPeerKey pongId) ∧
    (0 < m.ttl →
      (∀ p ∈ conns, p ≠ fromPeerKey →
        (handleMessageWrites conns m fromPeerKey pongId).count
          (p, serializeFrame { m with ttl := m.ttl - 1 }) = 1) ∧
      (∀ f : List Nat,
        (fromPeerKey, f) ∈ handleMessageWrites conns m fromPeerKey pongId →
        f ≠ serializeFrame { m with ttl := m.ttl - 1 })) := by
  constructor
  · intro h0 p hmem
    unfold handleMessageWrites at hmem
    rw [if_neg (by omega), List.append_nil] at hmem
    obtain ⟨-, hfr, hping, -⟩ :=
      handlerWrites_mem conns m fromPeerKey pongId p (serializeFrame m) hmem
    have htype : serializeFrame m ≠ serializeFrame (pongMessage pongId) := by
      apply serializeFrame_ne_of_msgType
      rw [hping, show (pongMessage pongId).msgType = MessageType.PONG from rfl]
      decide
    exact htype hfr
  · intro hpos
    constructor
    · intro p hp hne
      unfold handleMessageWrites
      rw [if_pos hpos, List.count_append]
      have hh : (handlerWrites conns m fromPeerKey pongId).count
          (p, serializeFrame { m with ttl := m.ttl - 1 }) = 0 := by
        rw [List.count_eq_zero]
        intro hmem
        obtain ⟨hq, -, -, -⟩ :=
          handlerWrites_mem conns m fromPeerKey pongId p _ hmem
        exact hne hq
      rw [hh, count_forwardMessage conns _ fromPeerKey p hnd hp hne]
    · intro f hmem
      unfold handleMessageWrites at hmem
      rw [if_pos hpos, List.mem_append] at hmem
      rcases hmem with hh | hf
      · obtain ⟨-, hfr, hping, -⟩ :=
          handlerWrites_mem conns m fromPeerKey pongId fromPeerKey f hh
        rw [hfr]
        apply serializeFrame_ne_of_msgType
        show (pongMessage pongId).msgType % 256 ≠
          ({ m with ttl := m.ttl - 1 } : Message).msgType % 256
        rw [show ({ m with ttl := m.ttl - 1 } : Message).msgType = m.msgType
          from rfl, hping,
          show (pongMessage pongId).msgType = MessageType.PONG from rfl]
        decide
      · rw [mem_forwardMessage] at hf
        exact absurd rfl hf.2.1

/-- Witness for C3: a ttl-0 chat message is not written anywhere; a ttl-3
chat message is forwarded exactly once to the other peer. -/
theorem handleMessage_forwarding_witness :
    ("B", serializeFrame ⟨5, 0, 9, []⟩) ∉
      handleMessageWrites ["A", "B"] ⟨5, 0, 9, []⟩ "A" 7 ∧
    (handleMessageWrites ["A", "B"] ⟨5, 3, 9, []⟩ "A" 7).count
      ("B", serializeFrame ⟨5, 2, 9, []⟩) = 1 := by
  constructor
  · exact (handleMessage_forwarding ["A", "B"] ⟨5, 0, 9, []⟩ "A" 7
      (by decide)).1 rfl "B"
  · exact ((handleMessage_forwarding ["A", "B"] ⟨5, 3, 9, []⟩ "A" 7
      (by decide)).2 (by decide)).1 "B" (by decide) (by decide)

/-- Counterexample to C4 as stated: a PING with ttl 1 from peer "A" is not
only answered with a PONG — `handleMessage` also forwards the PING itself,
with ttl decremented to 0, to the other connected peer "B", although the
claim says a PING is never forwarded regardless of its ttl. -/
theorem ping_forwarded_counterexample :
    (⟨MessageType.PING, 1, 5, []⟩ : Message).msgType = MessageType.PING ∧
    ("B", serializeFrame ⟨MessageType.PING, 0, 5, []⟩) ∈
      handleMessageWrites ["A", "B"] ⟨MessageType.PING, 1, 5, []⟩ "A" 7 := by
  decide

/-- C4 (amended): processing a non-duplicate PING from `fromPeerKey` sends a
fresh PONG to `fromPeerKey` only; additionally the PING itself is treated
like every other message — not forwarded when its ttl is 0, and forwarded
with ttl decremented exactly once to every other connected peer when its
ttl is positive. -/
theorem ping_pong_and_forward (conns : List String) (m : Message)
    (fromPeerKey : String) (pongId : Nat) (hnd : conns.Nodup)
    (hping : m.msgType = MessageType.PING) (hfrom : fromPeerKey ∈ conns) :
    (handleMessageWrites conns m fromPeerKey pongId).count
      (fromPeerKey, serializeFrame (pongMessage pongId)) = 1 ∧
    (∀ p : String, p ≠ fromPeerKey →
      (p, serializeFrame (pongMessage pongId)) ∉
        handleMessageWrites conns m fromPeerKey pongId) ∧
    (m.ttl = 0 →
      handleMessageWrites conns m fromPeerKey pongId =
        [(fromPeerKey, serializeFrame (pongMessage pongId))]) ∧
    (0 < m.ttl → ∀ p ∈ conns, p ≠ fromPeerKey →
      (handleMessageWrites conns m fromPeerKey pongId).count
        (p, serializeFrame { m with ttl := m.ttl - 1 }) = 1) := by
  have hhandler : handlerWrites conns m fromPeerKey pongId =
      [(fromPeerKey, serializeFrame (pongMessage pongId))] := by
    unfold handlerWrites sendToPeer
    rw [if_pos hping, if_pos hfrom]
  have hpongne : serializeFrame (pongMessage pongId) ≠
      serializeFrame ({ m with ttl := m.ttl - 1 } : Message) := by
    apply serializeFrame_ne_of_msgType
    show (pongMessage pongId).msgType % 256 ≠
      ({ m with ttl := m.ttl - 1 } : Message).msgType % 256
    rw [show ({ m with ttl := m.ttl - 1 } : Message).msgType = m.msgType
      from rfl, hping,
      show (pongMessage pongId).msgType = MessageType.PONG from rfl]
    decide
  refine ⟨?_, ?_, ?_, ?_⟩
  · unfold handleMessageWrites
    rw [List.count_append, hhandler]
    have hfz : (if 0 < m.ttl then
        forwardMessage conns { m with ttl := m.ttl - 1 } (some fromPeerKey)
        else []).count (fromPeerKey, serializeFrame (pongMessage pongId)) = 0 := by
      by_cases httl : 0 < m.ttl
      · rw [if_pos httl, List.count_eq_zero]
        intro hmem
        rw [mem_forwardMessage] at hmem
        exact absurd rfl hmem.2.1
      · rw [if_neg httl]
        rfl
    rw [hfz]
    simp
  · intro p hne hmem
    unfold handleMessageWrites at hmem
    rw [List.mem_append, hhandler, List.mem_singleton] at hmem
    rcases hmem with hh | hf
    · exact hne (congrArg Prod.fst hh)
    · by_cases httl : 0 < m.ttl
      · rw [if_pos httl, mem_forwardMessage] at hf
        exact hpongne hf.2.2
      · rw [if_neg httl] at hf
        cases hf
  · intro h0
    unfold handleMessageWrites
    rw [if_neg (by omega), List.append_nil, hhandler]
  · intro httl p hp hne
    unfold handleMessageWrites
    rw [if_pos httl, List.count_append, hhandler]
    have hz : ([(fromPeerKey, serializeFrame (pongMessage pongId))] :
        List (String × List Nat)).count
        (p, serializeFrame { m with ttl := m.ttl - 1 }) = 0 := by
      rw [List.count_eq_zero, List.mem_singleton]
      intro hc
      exact hne (congrArg Prod.fst hc)
    rw [hz, count_forwardMessage conns _ fromPeerKey p hnd hp hne]

/-- Witness for C9: a too-short input decodes to `none`, and a complete
well-formed input decodes to the corresponding message. -/
theorem deserialize_null_cases_witness :
    deserialize [1, 2, 3] = none ∧
    deserialize [5, 3, 0, 0, 0, 9, 0, 1, 65] = some ⟨5, 3, 9, [65]⟩ := by
  refine ⟨(deserialize_null_cases [1, 2, 3] (by decide)).1 (by decide), ?_⟩
  have h := (deserialize_null_cases [5, 3, 0, 0, 0, 9, 0, 1, 65]
    (by decide)).2.2.2 (by decide) (by decide) (by decide)
  simpa using h

/-- Witness for C4 (amended): with peers "A" and "B" and a ttl-1 PING from
"A", exactly one PONG goes to "A" and the PING is forwarded with ttl 0
exactly once to "B". -/
theorem ping_pong_and_forward_witness :
    (handleMessageWrites ["A", "B"] ⟨MessageType.PING, 1, 5, []⟩ "A" 7).count
      ("A", serializeFrame (pongMessage 7)) = 1 ∧
    (handleMessageWrites ["A", "B"] ⟨MessageType.PING, 1, 5, []⟩ "A" 7).count
      ("B", serializeFrame ⟨MessageType.PING, 0, 5, []⟩) = 1 := by
  have h := ping_pong_and_forward ["A", "B"] ⟨MessageType.PING, 1, 5, []⟩
    "A" 7 (by decide) rfl (by decide)
  exact ⟨h.1, h.2.2.2 (by decide) "B" (by decide) (by decide)⟩

/-! ## Lifecycle lemmas and theorems -/

lemma sweepFold_preserves : ∀ (stale : List String) (s : NetState),
    s.connections = s.peers →
    (stale.foldl
      (fun t k => ⟨mapDelete t.connections k, mapDelete t.peers k⟩)
      s).connections =
    (stale.foldl
      (fun t k => ⟨mapDelete t.connections k, mapDelete t.peers k⟩)
      s).peers := by
  intro stale
  induction stale with
  | nil =>
    intro s h
    exact h
  | cons k t ih =>
    intro s h
    show (t.foldl _
      (⟨mapDelete s.connections k, mapDelete s.peers k⟩ : NetState)).connections = _
    exact ih ⟨mapDelete s.connections k, mapDelete s.peers k⟩
      (show mapDelete s.connections k = mapDelete s.peers k by rw [h])

lemma step_preserves_eq (s : NetState) (e : NetEvent)
    (hne : e ≠ NetEvent.stop) (h : s.connections = s.peers) :
    (step s e).connections = (step s e).peers := by
  cases e with
  | outboundConnect k =>
    show (if k ∈ s.connections then s
      else (⟨mapSet s.connections k, mapSet s.peers k⟩ : NetState)).connections =
      (if k ∈ s.connections then s
      else (⟨mapSet s.connections k, mapSet s.peers k⟩ : NetState)).peers
    by_cases hk : k ∈ s.connections
    · rw [if_pos hk]
      exact h
    · rw [if_neg hk]
      show mapSet s.connections k = mapSet s.peers k
      rw [h]
  | inboundAccept k =>
    show mapSet s.connections k = mapSet s.peers k
    rw [h]
  | peerDisconnect k =>
    show mapDelete s.connections k = mapDelete s.peers k
    rw [h]
  | staleSweep stale => exact sweepFold_preserves stale s h
  | stop => exact absurd rfl hne

/-- C7 (amended): every lifecycle operation except `stop` — successful
outbound connect, inbound accept, peer disconnect, stale sweep — creates and
destroys a connection entry and its peer-registry entry together, so along
any event sequence without `stop` the two key sets stay equal; `stop`,
however, clears the connection table while leaving the peer registry
untouched (peer entries would only disappear later through each destroyed
socket's close callback). -/
theorem registry_invariant_no_stop :
    (∀ events : List NetEvent, (∀ e ∈ events, e ≠ NetEvent.stop) →
      (run events).connections = (run events).peers) ∧
    (∀ s : NetState, (step s NetEvent.stop).connections = [] ∧
      (step s NetEvent.stop).peers = s.peers) := by
  constructor
  · have hgen : ∀ (events : List NetEvent) (s : NetState),
        (∀ e ∈ events, e ≠ NetEvent.stop) → s.connections = s.peers →
        (events.foldl step s).connections = (events.foldl step s).peers := by
      intro events
      induction events with
      | nil =>
        intro s _ h
        exact h
      | cons e t ih =>
        intro s hall h
        show (t.foldl step (step s e)).connections = _
        exact ih (step s e) (fun x hx => hall x (List.mem_cons_of_mem e hx))
          (step_preserves_eq s e (hall e (List.mem_cons_self e t)) h)
    intro events hall
    exact hgen events ⟨[], []⟩ hall rfl
  · intro s
    exact ⟨rfl, rfl⟩

/-- Witness for C7 (amended): a concrete stop-free event sequence keeps the
two key sets equal. -/
theorem registry_invariant_no_stop_witness :
    (run [NetEvent.inboundAccept "A", NetEvent.outboundConnect "B",
      NetEvent.peerDisconnect "A"]).connections =
    (run [NetEvent.inboundAccept "A", NetEvent.outboundConnect "B",
      NetEvent.peerDisconnect "A"]).peers :=
  registry_invariant_no_stop.1 _ (by decide)

/-- Counterexample to C7 as stated: after an inbound accept of "A" followed
by `stop`, the connection table is empty but the peer registry still holds
"A" — a reachable state where the two key sets differ, because `stop` clears
`this.connections` without touching `this.peers`. -/
theorem stop_breaks_registry_invariant :
    (run [NetEvent.inboundAccept "A", NetEvent.stop]).connections ≠
      (run [NetEvent.inboundAccept "A", NetEvent.stop]).peers ∧
    (run [NetEvent.inboundAccept "A", NetEvent.stop]).connections = [] ∧
    (run [NetEvent.inboundAccept "A", NetEvent.stop]).peers = ["A"] := by
  refine ⟨by decide, by decide, by decide⟩

end P2PChat
